import Mathlib

/-!
Shallow embedding of the encrypted-bid settlement core of the Shadow
protocol repository (apps/web/src/lib/arciumMPC.ts,
apps/web/src/lib/shadowProtocol.ts, packages/client/src/crypto/encryption.ts).

Bytes of a JS Uint8Array / Node Buffer are modelled as List Nat, JS strings
as List Char.  External library primitives (ed25519 verification, SHA-256,
x25519, the Rescue cipher, base58/base64 codecs, JSON.parse) are not part of
the repository; they enter the embedding as explicit function parameters, so
every theorem quantifies over their behaviour.  Everything the repository
itself computes (slicing, length checks, hex padding, control flow) is
translated directly from the source.
-/

namespace Shadow

/-- Contents of a JS Uint8Array / Node Buffer, one Nat per byte. -/
abbrev Bytes := List Nat

/-- A JS string, as its character list. -/
abbrev Str := List Char

/-- ASCII bytes of a string literal, as Buffer.from(s) produces them. -/
def asciiBytes (s : String) : Bytes := s.toList.map Char.toNat

/-- External cryptographic primitives used by the proof verifier:
ed25519 verify(signature, message, key) from noble-ed25519, and SHA-256
from node crypto.  Both are external libraries, so the verifier is
parametrised over them. -/
structure Crypto where
  edVerify : Bytes → Bytes → Bytes → Bool
  sha256 : Bytes → Bytes

/-- Domain tag prepended to the signature verification message
(arciumMPC.ts, verifyArciumProof). -/
def sigDomainTag : Bytes := asciiBytes "arcium_mpc_verification"

/-- Domain tag prepended to the integrity hash input
(arciumMPC.ts, generateComputationHash). -/
def integrityDomainTag : Bytes := asciiBytes "shadow_mpc_computation_integrity"

/-- arciumMPC.ts verifyArciumProof: build the verification message as
tag ++ computationId ++ verificationKey ++ mxePublicKey and check the
ed25519 signature over it under verificationKey.  auxiliaryData is taken
(as in the source) but not used. -/
def verifyArciumProof (C : Crypto)
    (signature verificationKey auxiliaryData computationId mxePublicKey : Bytes) : Bool :=
  let verificationMessage := sigDomainTag ++ computationId ++ verificationKey ++ mxePublicKey
  C.edVerify signature verificationMessage verificationKey

/-- arciumMPC.ts generateComputationHash: SHA-256 over
tag ++ computationId ++ mxePublicKey. -/
def generateComputationHash (C : Crypto) (computationId mxePublicKey : Bytes) : Bytes :=
  C.sha256 (integrityDomainTag ++ computationId ++ mxePublicKey)

/-- arciumMPC.ts validateComputationIntegrity: recompute the expected hash,
reject proofs shorter than 96 bytes, and compare the expected hash with
proof bytes 64..96 (Buffer.compare == 0 is list equality). -/
def validateComputationIntegrity (C : Crypto)
    (computationId proof mxePublicKey : Bytes) : Bool :=
  let expectedHash := generateComputationHash C computationId mxePublicKey
  if proof.length < 96 then false
  else
    let actualHash := (proof.drop 64).take 32
    expectedHash == actualHash

/-- arciumMPC.ts verifyComputationProof: length checks, then the signature
check (step 1), then the integrity check (step 2); false as soon as any
stage fails. -/
def verifyComputationProof (C : Crypto) (proof computationId mxePublicKey : Bytes) : Bool :=
  if proof.length < 64 then false
  else if computationId.length ≠ 32 then false
  else
    let signature := proof.take 32
    let verificationKey := (proof.drop 32).take 32
    let auxiliaryData := proof.drop 64
    if verifyArciumProof C signature verificationKey auxiliaryData computationId mxePublicKey then
      validateComputationIntegrity C computationId proof mxePublicKey
    else false

/-- Concrete primitive instantiation used by witnesses: a signature check
that always accepts and a SHA-256 stub returning 32 zero bytes. -/
def trivialCrypto : Crypto where
  edVerify := fun _ _ _ => true
  sha256 := fun _ => List.replicate 32 0

/-- Characters of a string literal, as the JS source strings appear. -/
def lit (s : String) : Str := s.toList

/-- JS sub.isPrefix-style helper: substring containment scan used to model
String.prototype.includes. -/
def isInfixB (sub : Str) : Str → Bool
  | [] => sub.isEmpty
  | c :: cs => sub.isPrefixOf (c :: cs) || isInfixB sub cs

/-- JS s.includes(sub). -/
def strIncludes (s sub : Str) : Bool := isInfixB sub s

/-- arciumMPC.ts parseComputationResult: predicate of the queued-marker
find over the transaction logs. -/
def isQueuedLog (log : Str) : Bool :=
  strIncludes log (lit "MpcComputationQueued")
    || strIncludes log (lit "Program log: MPC computation queued")

/-- arciumMPC.ts parseComputationResult: predicate of the result-log find
(binary return-data branch). -/
def isReturnDataLog (log : Str) : Bool :=
  strIncludes log (lit "Program data:") || strIncludes log (lit "Program return:")

/-- arciumMPC.ts parseComputationResult: predicate of the JSON fallback
find. -/
def isMpcResultLog (log : Str) : Bool := strIncludes log (lit "MPC_RESULT:")

/-- Literal part of the return-data regex. -/
def programReturnPat : Str := lit "Program return: "

/-- Tail of the JS regex in parseComputationResult after its literal part:
one or more characters that are neither the letter s nor a backslash
(the source writes the character class with a doubled backslash, so it
excludes the letter s rather than whitespace), then a space, then a greedy
newline-free captured group.  The match length of the repeated class is the
largest j whose first j characters avoid s and backslash, with a space at
position j and at least one non-newline character after it; the captured
group is the maximal newline-free run after that space. -/
def regexCaptureAt (rest : Str) : Option Str :=
  let freeLen := (rest.takeWhile (fun c => !(c == 's' || c == '\\'))).length
  let js := (List.range freeLen).filter (fun j =>
    decide (1 ≤ j) && (rest.getD j 's' == ' ')
      && !(rest.getD (j + 1) '\n' == '\n'))
  match js.max? with
  | some j => some ((rest.drop (j + 1)).takeWhile (fun c => !(c == '\n')))
  | none => none

/-- JS line.match of the return-data regex: scan start positions left to
right; at the first position where the literal and the rest of the pattern
match, return the captured group. -/
def matchProgramReturn : Str → Option Str
  | [] => none
  | c :: cs =>
    if programReturnPat.isPrefixOf (c :: cs) then
      match regexCaptureAt ((c :: cs).drop programReturnPat.length) with
      | some cap => some cap
      | none => matchProgramReturn cs
    else matchProgramReturn cs

/-- Suffix of s strictly after the first occurrence of sep (empty when sep
does not occur; callers guard occurrence via a find). -/
def afterFirst (sep : Str) : Str → Str
  | [] => []
  | c :: cs =>
    if sep.isPrefixOf (c :: cs) then (c :: cs).drop sep.length else afterFirst sep cs

/-- Prefix of s before the first occurrence of sep (all of s when sep does
not occur). -/
def upToFirst (sep : Str) : Str → Str
  | [] => []
  | c :: cs => if sep.isPrefixOf (c :: cs) then [] else c :: upToFirst sep cs

/-- JS s.split(sep)[1]: the text between the first and the second
occurrence of sep, to the end of s when sep occurs only once. -/
def splitPart1 (sep s : Str) : Str := upToFirst sep (afterFirst sep s)

/-- Node Buffer.readBigUInt64LE(off): little-endian 64-bit read. -/
def readU64LE (bs : Bytes) (off : Nat) : Nat :=
  (List.range 8).foldr (fun i acc => acc * 256 + bs.getD (off + i) 0) 0

/-- One byte as two lowercase hex digits. -/
def byteToHex (b : Nat) : Str := [Nat.digitChar (b / 16 % 16), Nat.digitChar (b % 16)]

/-- Node Buffer.toString(hex). -/
def bytesToHex (bs : Bytes) : Str := (bs.map byteToHex).flatten

/-- MPCResult as built by the web parser (arciumMPC.ts).  The source stamps
timestamp with Date.now(); the wall clock enters the embedding as the
explicit parameter now.  The winning amount is the exact rational value of
the JS division by 1e9. -/
structure MPCResult where
  winner : Str
  winningAmount : ℚ
  rankings : List (Str × Nat)
  computationProof : Str
  computationId : Str
  timestamp : Nat
  deriving DecidableEq

/-- Field values the JSON fallback branch reads off the JSON.parse output;
none models a missing field (for winningAmount: missing or not parseable
by parseFloat, which the source then defaults through its zero-or guard). -/
structure JsonFields where
  winner : Str
  winningAmount : Option ℚ
  rankings : Option (List (Str × Nat))
  proof : Option Str
  computationId : Option Str
  deriving DecidableEq

/-- External JS primitives used by the result parser: solana PublicKey
base58 rendering, Node base64 decoding, and JSON.parse combined with the
field reads of the fallback branch (none = JSON.parse threw). -/
structure JsPrims where
  toBase58 : Bytes → Str
  b64decode : Str → Bytes
  jsonParse : Str → Option JsonFields

/-- arciumMPC.ts parseArciumMpcResult: fixed binary layout, rejecting
payloads shorter than 72 bytes; winner from bytes 0..32, amount the
little-endian u64 at 32..40 over 1e9, computation id the hex of bytes
40..72, proof the hex of bytes 72 onward; rankings always empty. -/
def parseArciumMpcResult (P : JsPrims) (now : Nat) (resultBytes : Bytes) :
    Option MPCResult :=
  if resultBytes.length < 72 then none
  else some {
    winner := P.toBase58 (resultBytes.take 32)
    winningAmount := (readU64LE resultBytes 32 : ℚ) / 1000000000
    rankings := []
    computationProof := bytesToHex (resultBytes.drop 72)
    computationId := bytesToHex ((resultBytes.drop 40).take 32)
    timestamp := now }

/-- arciumMPC.ts parseComputationResult: require the queued marker, then
find the first log line containing Program data: or Program return:.  If
that line matches the return-data regex, the binary branch returns directly
(even when the payload is short and the binary parse yields none).  Only
when no such line exists, or the regex fails on it, is the MPC_RESULT JSON
fallback consulted. -/
def parseComputationResult (P : JsPrims) (now : Nat) (logs : List Str) :
    Option MPCResult :=
  if (logs.find? isQueuedLog).isNone then none
  else
    let binary : Option (Option MPCResult) :=
      match logs.find? isReturnDataLog with
      | some line =>
        match matchProgramReturn line with
        | some cap => some (parseArciumMpcResult P now (P.b64decode cap))
        | none => none
      | none => none
    match binary with
    | some r => r
    | none =>
      match logs.find? isMpcResultLog with
      | some eventLog =>
        match P.jsonParse (splitPart1 (lit "MPC_RESULT:") eventLog) with
        | some f => some {
            winner := f.winner
            winningAmount := f.winningAmount.getD 0
            rankings := f.rankings.getD []
            computationProof := f.proof.getD []
            computationId := f.computationId.getD []
            timestamp := now }
        | none => none
      | none => none

/-- Counterexample logs for the parser priority claim: queued marker, then
a Program data: line, then a well-formed Program return: line. -/
def cxQueuedLog : Str := lit "Program log: MPC computation queued"

/-- The shadowing Program data: line of the counterexample. -/
def cxDataLog : Str := lit "Program data: AAAA"

/-- The return-data line of the counterexample. -/
def cxReturnLog : Str := lit "Program return: Prog AAAA"

/-- The counterexample transaction logs. -/
def cxLogs : List Str := [cxQueuedLog, cxDataLog, cxReturnLog]

/-- Concrete primitives for the parser counterexample: base64 decoding
yields 72 bytes for every payload. -/
def cxPrims : JsPrims where
  toBase58 := fun _ => lit "B58"
  b64decode := fun _ => List.replicate 72 0
  jsonParse := fun _ => none

/-- Logs for the parser witness: queued marker and the return-data line,
with no shadowing Program data: line. -/
def wLogs : List Str := [lit "MpcComputationQueued", lit "Program return: Prog AAAA"]

/-- Concrete primitives for the parser witness: payloads decode to 80
bytes. -/
def wPrims : JsPrims where
  toBase58 := fun _ => lit "W"
  b64decode := fun _ => List.replicate 80 3
  jsonParse := fun _ => none

/-- Value the external Rescue cipher returns per element: the dynamically
typed JS value the canonicalization branches on (typeof bigint, typeof
number, anything else). -/
inductive CipherElem
  | bigintVal (n : Nat)
  | numberVal (n : Nat)
  | other
  deriving DecidableEq

/-- External x25519 and Rescue-cipher primitives of the arcium client
library: public-key derivation, shared-secret derivation, and the cipher
encrypting integer plaintexts under a byte nonce. -/
structure CipherPrims where
  getPublicKey : Bytes → Bytes
  getSharedSecret : Bytes → Bytes → Bytes
  rescueEncrypt : Bytes → List Int → Bytes → List CipherElem

/-- JS toString(16) of a nonnegative value: lowercase hex, single 0 digit
for zero. -/
def natToHexStr (n : Nat) : Str := Nat.toDigits 16 n

/-- Hex string of a cipher element as the sources compute it: bigint and
number values render in base 16; anything else falls back to the literal
string 0 — the zero-fallback path. -/
def elemHexString : CipherElem → Str
  | .bigintVal n => natToHexStr n
  | .numberVal n => natToHexStr n
  | .other => lit "0"

/-- Hex digit test matching what parseInt(-, 16) accepts. -/
def isHexDigitB (c : Char) : Bool :=
  c.isDigit || ('a' ≤ c && c ≤ 'f') || ('A' ≤ c && c ≤ 'F')

/-- Value of one hex digit. -/
def hexCharVal (c : Char) : Nat :=
  if c.isDigit then c.toNat - 48
  else if 'a' ≤ c && c ≤ 'f' then c.toNat - 87
  else c.toNat - 55

/-- JS parseInt(two-character string, 16), combined with the NaN-to-0
conversion a Uint8Array store performs: invalid first digit gives 0, an
invalid second digit leaves just the first digit parsed. -/
def parseIntHex2 (a b : Char) : Nat :=
  if isHexDigitB a then
    if isHexDigitB b then 16 * hexCharVal a + hexCharVal b else hexCharVal a
  else 0

/-- JS padStart(64, zero digit). -/
def padStart64 (s : Str) : Str := List.replicate (64 - s.length) '0' ++ s

/-- The 32-byte ciphertext canonicalization every encryption path applies
to the first cipher element: new Uint8Array(32) stays zero-filled when the
cipher output is empty; otherwise the element's hex string is left-padded
to 64 digits and read two digits per byte (out-of-range reads give empty
substrings, hence NaN, hence byte 0). -/
def canonicalize32 : List CipherElem → Bytes
  | [] => List.replicate 32 0
  | e :: _ =>
    let paddedHex := padStart64 (elemHexString e)
    (List.range 32).map (fun i =>
      parseIntHex2 (paddedHex.getD (2 * i) 'x') (paddedHex.getD (2 * i + 1) 'x'))

/-- BigInt(Math.floor(amount * LAMPORTS_PER_SOL)) with the JS number
amount modelled as an exact rational. -/
def encodeAmountLamports (amount : ℚ) : Int := ⌊amount * 1000000000⌋

/-- The only typed failure the web encryption paths raise: the final throw
of encryptBidAmount / encryptReservePrice when the key argument is falsy
or not 32 bytes long. -/
inductive ShadowError
  | invalidMxeKey
  deriving DecidableEq

/-- Envelope returned by shadowProtocol.ts encryptBidAmount. -/
structure BidEnvelope where
  encryptedAmount : Bytes
  publicKey : Bytes
  nonce : Bytes
  deriving DecidableEq

/-- shadowProtocol.ts encryptBidAmount: the only guard is that the key is
present and exactly 32 bytes; the fresh private key and 16-byte nonce come
from the environment and enter as parameters. -/
def encryptBidAmount (Pr : CipherPrims) (privateKey nonce : Bytes) (amount : ℚ)
    (mxePublicKey : Option Bytes) : Except ShadowError BidEnvelope :=
  let amountInLamports := encodeAmountLamports amount
  match mxePublicKey with
  | some pk =>
    if pk.length = 32 then
      let publicKey := Pr.getPublicKey privateKey
      let sharedSecret := Pr.getSharedSecret privateKey pk
      let encryptedResult := Pr.rescueEncrypt sharedSecret [amountInLamports] nonce
      .ok ⟨canonicalize32 encryptedResult, publicKey, nonce⟩
    else .error .invalidMxeKey
  | none => .error .invalidMxeKey

/-- BigInt of the concatenated two-digit hex of a byte list, i.e. its
big-endian value (the bytes come from randomBytes, so each is below 256). -/
def beNat (bs : Bytes) : Nat := bs.foldl (fun acc b => acc * 256 + b) 0

/-- Envelope returned by shadowProtocol.ts encryptReservePrice: the nonce
field is a bigint, not the 16 nonce bytes. -/
structure ReserveEnvelope where
  encrypted : Bytes
  nonce : Nat
  deriving DecidableEq

/-- shadowProtocol.ts encryptReservePrice: encrypts under the full 16-byte
nonce but returns as nonce only the bigint of the hex of its first 8
bytes. -/
def encryptReservePrice (Pr : CipherPrims) (privateKey nonce : Bytes) (price : ℚ)
    (mxePublicKey : Option Bytes) : Except ShadowError ReserveEnvelope :=
  let priceInLamports := encodeAmountLamports price
  let nonceValue := beNat (nonce.take 8)
  match mxePublicKey with
  | some pk =>
    if pk.length = 32 then
      let sharedSecret := Pr.getSharedSecret privateKey pk
      let encryptedResult := Pr.rescueEncrypt sharedSecret [priceInLamports] nonce
      .ok ⟨canonicalize32 encryptedResult, nonceValue⟩
    else .error .invalidMxeKey
  | none => .error .invalidMxeKey

/-- Envelope returned by arciumMPC.ts encryptBidForMXE (note: this path
has no failure case at all). -/
structure EncryptedBid where
  bidder : Str
  encryptedAmount : Bytes
  nonce : Bytes
  publicKey : Bytes
  timestamp : Nat
  sharedSecret : Bytes
  deriving DecidableEq

/-- arciumMPC.ts encryptBidForMXE: derive keys, encrypt
floor(bidAmount * 1e9) under the 16-byte nonce, canonicalize the first
cipher element to 32 bytes, and return the envelope unconditionally. -/
def encryptBidForMXE (Pr : CipherPrims) (privateKey nonce : Bytes) (now : Nat)
    (bidAmount : ℚ) (bidder : Str) (clusterPublicKey : Bytes) : EncryptedBid :=
  let publicKey := Pr.getPublicKey privateKey
  let sharedSecret := Pr.getSharedSecret privateKey clusterPublicKey
  let ciphertext := Pr.rescueEncrypt sharedSecret [encodeAmountLamports bidAmount] nonce
  ⟨bidder, canonicalize32 ciphertext, nonce, publicKey, now, sharedSecret⟩

/-- packages/client EncryptionManager constructor key setup: with no key
argument the stored key defaults to 32 zero bytes (new Uint8Array(32)); a
provided array is stored as is, with no length or zero check. -/
def encryptionManagerKey (mxePublicKey : Option Bytes) : Bytes :=
  match mxePublicKey with
  | some k => k
  | none => List.replicate 32 0

/-- Result of EncryptionManager.encryptValue; encryptedData keeps the raw
cipher elements (the claims concern only that the call proceeds and which
key the shared secret is derived from). -/
structure EncryptValueResult where
  encryptedData : List CipherElem
  nonce : Nat
  publicKey : Bytes
  sharedSecret : Bytes

/-- packages/client EncryptionManager.encryptValue: derives the shared
secret from the passed key, or else the stored key, with no guard of any
kind, and encrypts; the returned nonce here is the bigint of all 16 nonce
bytes. -/
def encryptValue (Pr : CipherPrims) (privateKey nonceBytes : Bytes)
    (storedKey : Bytes) (value : Int) (mxePublicKey : Option Bytes) :
    EncryptValueResult :=
  let publicKey := Pr.getPublicKey privateKey
  let publicKeyToUse := mxePublicKey.getD storedKey
  let sharedSecret := Pr.getSharedSecret privateKey publicKeyToUse
  let ciphertext := Pr.rescueEncrypt sharedSecret [value] nonceBytes
  ⟨ciphertext, beNat nonceBytes, publicKey, sharedSecret⟩

/-- Arguments ShadowProtocol.submitBid passes to the submitEncryptedBid
instruction (claims concern the nonce argument). -/
structure SubmitBidArgs where
  auctionId : Nat
  encryptedAmount : Bytes
  publicKey : Bytes
  nonceArg : Nat
  deriving DecidableEq

/-- shadowProtocol.ts ShadowProtocol.submitBid: encrypt the bid via
encryptBidAmount, then build the instruction arguments; the nonce sent on
chain is the bigint of the hex of only the first 8 bytes of the 16-byte
nonce the encryption used. -/
def submitBidArgs (Pr : CipherPrims) (privateKey nonce : Bytes) (auctionId : Nat)
    (bidAmount : ℚ) (mxePublicKey : Option Bytes) :
    Except ShadowError SubmitBidArgs :=
  (encryptBidAmount Pr privateKey nonce bidAmount mxePublicKey).map fun env =>
    ⟨auctionId, env.encryptedAmount, env.publicKey, beNat (env.nonce.take 8)⟩

/-- Cipher primitives for witnesses: identity-like key derivations, cipher
output a single bigint element. -/
def idCipherPrims : CipherPrims where
  getPublicKey := fun k => k
  getSharedSecret := fun _ k => k
  rescueEncrypt := fun _ _ _ => [CipherElem.bigintVal 5]

/-- Cipher primitives whose output element is neither bigint nor number,
exercising the zero-fallback branch. -/
def otherCipherPrims : CipherPrims where
  getPublicKey := fun k => k
  getSharedSecret := fun _ k => k
  rescueEncrypt := fun _ _ _ => [CipherElem.other]

/-- Confirmation status values a getSignatureStatus response can carry. -/
inductive ConfStatus
  | processed
  | confirmed
  | finalized
  | statusOther
  deriving DecidableEq

/-- A non-null getSignatureStatus value: err is the truthiness of
status.value.err, conf the confirmationStatus (none when absent). -/
structure SigStatus where
  err : Bool
  conf : Option ConfStatus
  deriving DecidableEq

/-- A getSignatureStatus response; none models status.value null. -/
abbrev StatusResp := Option SigStatus

/-- Whether a response reports the finalized confirmation status. -/
def isFinalizedResp (r : StatusResp) : Bool :=
  match r with
  | some st => st.conf == some ConfStatus.finalized
  | none => false

/-- Whether a response carries a truthy err. -/
def isErrResp (r : StatusResp) : Bool :=
  match r with
  | some st => st.err
  | none => false

/-- The failures the polling paths raise: the polling/monitoring timeout,
the computation-failed error, missing transaction logs, and an
unparseable result. -/
inductive PollError
  | timeout
  | failed
  | noLogs
  | parseFailed
  deriving DecidableEq

/-- Default maxAttempts of pollComputationResult. -/
def defaultMaxAttempts : Nat := 30

/-- Default intervalMs of pollComputationResult. -/
def defaultIntervalMs : Nat := 2000

/-- Default timeoutMs of monitorComputationProgress. -/
def defaultMonitorTimeoutMs : Nat := 300000

/-- Loop body of arciumMPC.ts pollComputationResult, recursing on the
remaining attempts: each iteration performs one status query (indexed by
the attempt counter); on a finalized status it reads the transaction log
messages (logsAt, none when the transaction or its logs are missing) and
returns a parsed result when one is produced; otherwise it sleeps and
retries; exhausting the attempts throws the polling-timeout error. -/
def pollFrom (P : JsPrims) (now : Nat) (statusAt : Nat → StatusResp)
    (logsAt : Nat → Option (List Str)) : Nat → Nat → Except PollError MPCResult
  | _, 0 => .error .timeout
  | attempt, r + 1 =>
    let stepResult : Option MPCResult :=
      if isFinalizedResp (statusAt attempt) then
        match logsAt attempt with
        | some logs => parseComputationResult P now logs
        | none => none
      else none
    match stepResult with
    | some res => .ok res
    | none => pollFrom P now statusAt logsAt (attempt + 1) r

/-- arciumMPC.ts pollComputationResult with its while-loop expressed over
the attempt budget; intervalMs only paces the sleeps. -/
def pollComputationResult (P : JsPrims) (now : Nat) (statusAt : Nat → StatusResp)
    (logsAt : Nat → Option (List Str)) (maxAttempts intervalMs : Nat) :
    Except PollError MPCResult :=
  pollFrom P now statusAt logsAt 0 maxAttempts

/-- The four user-facing states of getComputationStatus. -/
inductive CompStatus
  | pending
  | processing
  | completed
  | failed
  deriving DecidableEq

/-- arciumMPC.ts getComputationStatus, status and progress fields: null
value gives pending/0, a truthy err gives failed/0, processed gives
processing/30, confirmed processing/70, finalized completed/100, anything
else processing/10. -/
def getComputationStatus (r : StatusResp) : CompStatus × Nat :=
  match r with
  | none => (.pending, 0)
  | some st =>
    if st.err then (.failed, 0)
    else
      match st.conf with
      | some .processed => (.processing, 30)
      | some .confirmed => (.processing, 70)
      | some .finalized => (.completed, 100)
      | _ => (.processing, 10)

/-- arciumMPC.ts monitorComputationProgress: loop while the elapsed wall
clock is under timeoutMs; on completed parse the transaction logs
(throwing when absent or unparseable), on failed throw, otherwise wait
5000 ms when pending and 2000 ms otherwise and loop; leaving the loop
throws the monitoring-timeout error.  Iterations index the status and log
environments and the elapsed clock advances by the wait picked each
round. -/
def monitorLoop (P : JsPrims) (now : Nat) (statusAt : Nat → StatusResp)
    (logsAt : Nat → Option (List Str)) (iter elapsed timeoutMs : Nat) :
    Except PollError MPCResult :=
  if h : elapsed < timeoutMs then
    let st := getComputationStatus (statusAt iter)
    match st.1 with
    | .completed =>
      match logsAt iter with
      | some logs =>
        match parseComputationResult P now logs with
        | some r => .ok r
        | none => .error .parseFailed
      | none => .error .noLogs
    | .failed => .error .failed
    | _ =>
      let waitTime := if st.1 = .pending then 5000 else 2000
      monitorLoop P now statusAt logsAt (iter + 1) (elapsed + waitTime) timeoutMs
  else .error .timeout
termination_by timeoutMs - elapsed
decreasing_by
  simp_wf
  split <;> omega

/-- Trivial JS primitives for the polling witness. -/
def pollPrims : JsPrims where
  toBase58 := fun _ => []
  b64decode := fun _ => []
  jsonParse := fun _ => none

end Shadow

namespace Shadow

/-- C1: for every proof, computationId and cluster public key (and every
behaviour of the external signature and hash primitives),
verifyComputationProof returns true only if both the step-1 signature check
(ed25519 over tag ++ computationId ++ verificationKey ++ clusterPublicKey,
under the verification key proof[32:64], of the signature proof[0:32]) and
the step-2 integrity-hash check pass; if either fails the result is false. -/
theorem verifyComputationProof_true_requires_both (C : Crypto)
    (proof computationId mxePublicKey : Bytes)
    (h : verifyComputationProof C proof computationId mxePublicKey = true) :
    C.edVerify (proof.take 32)
        (sigDomainTag ++ computationId ++ (proof.drop 32).take 32 ++ mxePublicKey)
        ((proof.drop 32).take 32) = true
      ∧ validateComputationIntegrity C computationId proof mxePublicKey = true := by
  simp only [verifyComputationProof] at h
  split at h
  · exact absurd h (by simp)
  split at h
  · exact absurd h (by simp)
  split at h
  case isTrue hsig => exact ⟨hsig, h⟩
  case isFalse hsig => exact absurd h (by simp)

/-- Witness for C1: a concrete input on which verification succeeds, so the
hypothesis of the theorem is satisfiable. -/
theorem verifyComputationProof_true_requires_both_witness :
    trivialCrypto.edVerify ((List.replicate 96 0 : Bytes).take 32)
        (sigDomainTag ++ (List.replicate 32 0 : Bytes)
          ++ ((List.replicate 96 0 : Bytes).drop 32).take 32 ++ ([] : Bytes))
        (((List.replicate 96 0 : Bytes).drop 32).take 32) = true
      ∧ validateComputationIntegrity trivialCrypto (List.replicate 32 0)
          (List.replicate 96 0) [] = true :=
  verifyComputationProof_true_requires_both trivialCrypto
    (List.replicate 96 0) (List.replicate 32 0) [] (by decide)

/-- C2: for every proof of at least 96 bytes and 32-byte computationId, if
proof[64:96] differs from the recomputed integrity hash then
verifyComputationProof returns false — for every signature primitive, hence
in particular when the signature is valid. -/
theorem verifyComputationProof_integrity_mismatch (C : Crypto)
    (proof computationId mxePublicKey : Bytes)
    (h96 : 96 ≤ proof.length) (hcid : computationId.length = 32)
    (hm : (proof.drop 64).take 32
        ≠ C.sha256 (integrityDomainTag ++ computationId ++ mxePublicKey)) :
    verifyComputationProof C proof computationId mxePublicKey = false := by
  simp only [verifyComputationProof]
  rw [if_neg (by omega), if_neg (by simp [hcid])]
  split
  · simp only [validateComputationIntegrity, generateComputationHash]
    rw [if_neg (by omega)]
    exact beq_eq_false_iff_ne.mpr (Ne.symm hm)
  · rfl

/-- Witness for C2: concrete 96-byte proof whose hash slice mismatches the
recomputed hash while the signature primitive accepts everything. -/
theorem verifyComputationProof_integrity_mismatch_witness :
    verifyComputationProof trivialCrypto (List.replicate 96 1) (List.replicate 32 0) []
      = false :=
  verifyComputationProof_integrity_mismatch trivialCrypto
    (List.replicate 96 1) (List.replicate 32 0) [] (by decide) (by decide) (by decide)

/-- C3: verifyComputationProof returns false whenever the proof is shorter
than 64 bytes or the computationId is not exactly 32 bytes, regardless of
the proof contents, the cluster public key, or the crypto primitives. -/
theorem verifyComputationProof_rejects_short_or_bad_id (C : Crypto)
    (proof computationId mxePublicKey : Bytes)
    (h : proof.length < 64 ∨ computationId.length ≠ 32) :
    verifyComputationProof C proof computationId mxePublicKey = false := by
  rcases h with h | h
  · simp [verifyComputationProof, h]
  · simp [verifyComputationProof, h]

/-- Witness for C3: the empty proof is rejected. -/
theorem verifyComputationProof_rejects_short_or_bad_id_witness :
    verifyComputationProof trivialCrypto [] (List.replicate 32 0) [] = false :=
  verifyComputationProof_rejects_short_or_bad_id trivialCrypto [] (List.replicate 32 0) []
    (Or.inl (by decide))

/-- C9: for proofs of length in [64, 96) with a 32-byte computationId,
verifyComputationProof returns false for every signature primitive — even
one that accepts every signature — because validateComputationIntegrity
rejects any proof shorter than 96 bytes. -/
theorem verifyComputationProof_requires_hash_region (C : Crypto)
    (proof computationId mxePublicKey : Bytes)
    (h64 : 64 ≤ proof.length) (h96 : proof.length < 96)
    (hcid : computationId.length = 32) :
    verifyComputationProof C proof computationId mxePublicKey = false := by
  simp only [verifyComputationProof]
  rw [if_neg (by omega), if_neg (by simp [hcid])]
  split
  · simp only [validateComputationIntegrity]
    rw [if_pos h96]
  · rfl

/-- Witness for C9: a 64-byte proof (signature plus key, no hash region) is
rejected although the signature primitive accepts everything. -/
theorem verifyComputationProof_requires_hash_region_witness :
    verifyComputationProof trivialCrypto (List.replicate 64 0) (List.replicate 32 0) []
      = false :=
  verifyComputationProof_requires_hash_region trivialCrypto
    (List.replicate 64 0) (List.replicate 32 0) [] (by decide) (by decide) (by decide)

/-- C4 counterexample: the logs hold the queued marker and a Program
return: line whose base64 payload decodes to 72 bytes, yet
parseComputationResult returns none rather than the binary result of that
payload, because an earlier Program data: line is picked by the single
find over result logs and the regex then fails on it. -/
theorem parseComputationResult_shadowed_counterexample :
    (cxLogs.find? isQueuedLog).isSome = true
      ∧ cxReturnLog ∈ cxLogs
      ∧ matchProgramReturn cxReturnLog = some (lit "AAAA")
      ∧ (cxPrims.b64decode (lit "AAAA")).length = 72
      ∧ parseArciumMpcResult cxPrims 0 (cxPrims.b64decode (lit "AAAA"))
          = some { winner := lit "B58", winningAmount := 0, rankings := [],
                   computationProof := [],
                   computationId := bytesToHex (List.replicate 32 0),
                   timestamp := 0 }
      ∧ parseComputationResult cxPrims 0 cxLogs = none := by
  refine ⟨by decide, by decide, by decide, by decide, ?_, by decide⟩
  simp only [parseArciumMpcResult]
  rw [if_neg (by decide)]
  simp only [Option.some.injEq, MPCResult.mk.injEq]
  refine ⟨by decide, ?_, trivial, by decide, by decide, trivial⟩
  have h0 : readU64LE (cxPrims.b64decode (lit "AAAA")) 32 = 0 := by decide
  rw [h0]
  norm_num

/-- C4 (amended): when the queued marker is present and the first log line
containing Program data: or Program return: matches the return-data
pattern with captured payload cap, the parser output is exactly the binary
decoding of cap whenever it has at least 72 bytes — winner from bytes
0..32, amount the little-endian u64 at 32..40 over 1e9, id from 40..72,
proof from 72 on — regardless of any MPC_RESULT JSON line also present;
and when the payload has fewer than 72 bytes the parser returns none: the
binary branch yields nothing and the JSON fallback is not consulted. -/
theorem parseComputationResult_binary_priority (P : JsPrims) (now : Nat)
    (logs : List Str) (line cap : Str)
    (hq : (logs.find? isQueuedLog).isSome = true)
    (hline : logs.find? isReturnDataLog = some line)
    (hcap : matchProgramReturn line = some cap) :
    (72 ≤ (P.b64decode cap).length →
      parseComputationResult P now logs = some {
        winner := P.toBase58 ((P.b64decode cap).take 32)
        winningAmount := (readU64LE (P.b64decode cap) 32 : ℚ) / 1000000000
        rankings := []
        computationProof := bytesToHex ((P.b64decode cap).drop 72)
        computationId := bytesToHex (((P.b64decode cap).drop 40).take 32)
        timestamp := now })
    ∧ ((P.b64decode cap).length < 72 → parseComputationResult P now logs = none) := by
  have hq' : (logs.find? isQueuedLog).isNone = false := by
    cases hfind : logs.find? isQueuedLog with
    | none => rw [hfind] at hq; simp at hq
    | some q => simp [hfind]
  constructor
  · intro hlen
    simp only [parseComputationResult, hq', hline, hcap, Bool.false_eq_true, if_false]
    simp only [parseArciumMpcResult]
    rw [if_neg (by omega)]
  · intro hlen
    simp only [parseComputationResult, hq', hline, hcap, Bool.false_eq_true, if_false]
    simp only [parseArciumMpcResult]
    rw [if_pos hlen]

/-- Witness for C4 (amended): concrete logs without a shadowing line, with
a payload decoding to 80 bytes, on which the parser returns the binary
result. -/
theorem parseComputationResult_binary_priority_witness :
    parseComputationResult wPrims 0 wLogs = some {
      winner := wPrims.toBase58 ((wPrims.b64decode (lit "AAAA")).take 32)
      winningAmount := (readU64LE (wPrims.b64decode (lit "AAAA")) 32 : ℚ) / 1000000000
      rankings := []
      computationProof := bytesToHex ((wPrims.b64decode (lit "AAAA")).drop 72)
      computationId := bytesToHex (((wPrims.b64decode (lit "AAAA")).drop 40).take 32)
      timestamp := 0 } :=
  (parseComputationResult_binary_priority wPrims 0 wLogs
    (lit "Program return: Prog AAAA") (lit "AAAA")
    (by decide) (by decide) (by decide)).1 (by decide)

/-- C5 evaluated at the failing inputs: a zero-filled 32-byte cluster key
passes the only guard of encryptBidAmount, so encryption proceeds and an
envelope is produced with the shared secret derived from the zero key; and
the client EncryptionManager, constructed without a key, stores the
zero-filled default, and encryptValue proceeds with it unconditionally —
its result type has no failure case at all.  Neither path can raise a
missing-cluster-key error on a zero-filled key. -/
theorem zero_cluster_key_encryption_proceeds :
    (∀ (Pr : CipherPrims) (priv nonce : Bytes) (amount : ℚ),
      encryptBidAmount Pr priv nonce amount (some (List.replicate 32 0))
        = .ok ⟨canonicalize32 (Pr.rescueEncrypt
              (Pr.getSharedSecret priv (List.replicate 32 0))
              [encodeAmountLamports amount] nonce),
            Pr.getPublicKey priv, nonce⟩)
    ∧ encryptionManagerKey none = List.replicate 32 0
    ∧ (∀ (Pr : CipherPrims) (priv nonceBytes : Bytes) (v : Int),
      encryptValue Pr priv nonceBytes (encryptionManagerKey none) v none
        = ⟨Pr.rescueEncrypt (Pr.getSharedSecret priv (List.replicate 32 0)) [v] nonceBytes,
           beNat nonceBytes, Pr.getPublicKey priv,
           Pr.getSharedSecret priv (List.replicate 32 0)⟩) := by
  refine ⟨fun Pr priv nonce amount => ?_, rfl, fun Pr priv nb v => rfl⟩
  simp [encryptBidAmount]

/-- C6 evaluated at the failing input: when the cipher returns an element
that is neither bigint nor number, the canonicalization renders it as the
hex string 0, producing a zero-filled 32-byte ciphertext, and
encryptBidForMXE returns that envelope — it raises nothing (its type has no
failure case), so the failure is swallowed into a zero value. -/
theorem unparseable_cipher_element_becomes_zero (Pr : CipherPrims)
    (priv nonce : Bytes) (now : Nat) (bidder : Str) (ck : Bytes) (amount : ℚ)
    (h : Pr.rescueEncrypt (Pr.getSharedSecret priv ck)
        [encodeAmountLamports amount] nonce = [CipherElem.other]) :
    (encryptBidForMXE Pr priv nonce now amount bidder ck).encryptedAmount
        = List.replicate 32 0
      ∧ canonicalize32 [CipherElem.other] = List.replicate 32 0 := by
  have hc : canonicalize32 [CipherElem.other] = List.replicate 32 0 := by decide
  refine ⟨?_, hc⟩
  simp only [encryptBidForMXE, h]
  exact hc

/-- Witness for C6: concrete primitives whose cipher output is the
non-numeric element. -/
theorem unparseable_cipher_element_becomes_zero_witness :
    (encryptBidForMXE otherCipherPrims [] [] 0 0 [] []).encryptedAmount
        = List.replicate 32 0
      ∧ canonicalize32 [CipherElem.other] = List.replicate 32 0 :=
  unparseable_cipher_element_becomes_zero otherCipherPrims [] [] 0 [] [] 0 rfl

/-- C7 evaluated: the encoder used by bid and reserve encryption is
floor(amount * 1e9) — 7.5 encodes to 7500000000 — but a negative amount is
not rejected anywhere: at amount -1 both encryptBidAmount and
encryptReservePrice proceed, hand the negative plaintext -1000000000 to
the cipher, and return ok instead of an invalid-amount error (no such
error exists in the source). -/
theorem negative_amount_not_rejected :
    encodeAmountLamports (75 / 10) = 7500000000
    ∧ encodeAmountLamports (-1) = -1000000000
    ∧ (∀ (Pr : CipherPrims) (priv nonce : Bytes),
        encryptBidAmount Pr priv nonce (-1) (some (List.replicate 32 1))
          = .ok ⟨canonicalize32 (Pr.rescueEncrypt
                (Pr.getSharedSecret priv (List.replicate 32 1))
                [(-1000000000 : Int)] nonce),
              Pr.getPublicKey priv, nonce⟩)
    ∧ (∀ (Pr : CipherPrims) (priv nonce : Bytes),
        encryptReservePrice Pr priv nonce (-1) (some (List.replicate 32 1))
          = .ok ⟨canonicalize32 (Pr.rescueEncrypt
                (Pr.getSharedSecret priv (List.replicate 32 1))
                [(-1000000000 : Int)] nonce),
              beNat (nonce.take 8)⟩) := by
  have henc : encodeAmountLamports (-1) = -1000000000 := by
    rw [encodeAmountLamports,
      show ((-1 : ℚ) * 1000000000) = ((-1000000000 : Int) : ℚ) by norm_num,
      Int.floor_intCast]
  refine ⟨?_, henc, fun Pr priv nonce => ?_, fun Pr priv nonce => ?_⟩
  · rw [encodeAmountLamports,
      show ((75 : ℚ) / 10 * 1000000000) = ((7500000000 : Int) : ℚ) by norm_num,
      Int.floor_intCast]
  · simp [encryptBidAmount, henc]
  · simp [encryptReservePrice, henc]

/-- C10: encryptReservePrice encrypts under the full 16-byte nonce yet
returns only the integer of its first 8 bytes, and submitBid sends on
chain only the integer of the first 8 bytes of the bid-encryption nonce;
for every 16-byte nonce with a nonzero byte among positions 8..15 the
truncation loses information — the nonce with the same first half and a
zeroed second half is different but yields the same value — so no recovery
function can reconstruct nonces from the returned or submitted value. -/
theorem nonce_truncated_to_8_bytes (Pr : CipherPrims) (priv nonce : Bytes)
    (price bidAmount : ℚ) (pk : Bytes) (auctionId : Nat)
    (hpk : pk.length = 32) (hn : nonce.length = 16)
    (hnz : nonce.drop 8 ≠ List.replicate 8 0) :
    (encryptReservePrice Pr priv nonce price (some pk)
        = .ok ⟨canonicalize32 (Pr.rescueEncrypt (Pr.getSharedSecret priv pk)
              [encodeAmountLamports price] nonce), beNat (nonce.take 8)⟩)
    ∧ (submitBidArgs Pr priv nonce auctionId bidAmount (some pk)
        = .ok ⟨auctionId,
            canonicalize32 (Pr.rescueEncrypt (Pr.getSharedSecret priv pk)
              [encodeAmountLamports bidAmount] nonce),
            Pr.getPublicKey priv, beNat (nonce.take 8)⟩)
    ∧ (nonce.take 8 ++ List.replicate 8 0 ≠ nonce
        ∧ (nonce.take 8 ++ List.replicate 8 0).length = 16
        ∧ beNat ((nonce.take 8 ++ List.replicate 8 0).take 8)
            = beNat (nonce.take 8))
    ∧ (∀ recover : Nat → Bytes,
        ¬ (∀ m : Bytes, m.length = 16 → recover (beNat (m.take 8)) = m)) := by
  have hlen8 : (nonce.take 8).length = 8 := by
    rw [List.length_take]
    omega
  refine ⟨by simp [encryptReservePrice, hpk],
    by simp [submitBidArgs, encryptBidAmount, hpk, Except.map],
    ⟨?_, ?_, ?_⟩, ?_⟩
  · intro heq
    apply hnz
    have h2 := congrArg (List.drop 8) heq
    rw [List.drop_left' hlen8] at h2
    exact h2.symm
  · rw [List.length_append, hlen8]
    simp
  · rw [List.take_left' hlen8]
  · intro recover hr
    have h1 := hr (List.replicate 16 0) (by decide)
    have h2 := hr (List.replicate 15 0 ++ [1]) (by decide)
    rw [show beNat ((List.replicate 15 0 ++ [1] : Bytes).take 8)
        = beNat ((List.replicate 16 0 : Bytes).take 8) from by decide] at h2
    rw [h1] at h2
    exact absurd h2 (by decide)

/-- Witness for C10: the concrete nonce with zero first half and last byte
one loses its second half under the truncation. -/
theorem nonce_truncated_to_8_bytes_witness :
    (List.replicate 15 0 ++ [1] : Bytes).take 8 ++ List.replicate 8 0
      ≠ List.replicate 15 0 ++ [1] :=
  (nonce_truncated_to_8_bytes idCipherPrims [] (List.replicate 15 0 ++ [1]) 0 0
    (List.replicate 32 1) 0 (by decide) (by decide) (by decide)).2.2.1.1

/-- Helper: the polling loop hits the timeout error when no inspected
status response is finalized; only the attempts in the remaining budget
are ever queried. -/
theorem pollFrom_never_finalized (P : JsPrims) (now : Nat)
    (statusAt : Nat → StatusResp) (logsAt : Nat → Option (List Str)) :
    ∀ (r a : Nat), (∀ i, a ≤ i → i < a + r → isFinalizedResp (statusAt i) = false) →
      pollFrom P now statusAt logsAt a r = .error .timeout
  | 0, _, _ => rfl
  | r + 1, a, h => by
    have h0 : isFinalizedResp (statusAt a) = false := h a le_rfl (by omega)
    simp only [pollFrom, h0, Bool.false_eq_true, if_false]
    exact pollFrom_never_finalized P now statusAt logsAt r (a + 1)
      (fun i hi1 hi2 => h i (by omega) (by omega))

/-- Helper: a response that is neither finalized nor an error maps to the
pending or processing user-facing status. -/
theorem getComputationStatus_not_terminal (r : StatusResp)
    (h1 : isFinalizedResp r = false) (h2 : isErrResp r = false) :
    (getComputationStatus r).1 = CompStatus.pending
      ∨ (getComputationStatus r).1 = CompStatus.processing := by
  rcases r with _ | ⟨err, conf⟩
  · exact Or.inl rfl
  · cases err
    · rcases conf with _ | c
      · exact Or.inr rfl
      · cases c
        · exact Or.inr rfl
        · exact Or.inr rfl
        · simp [isFinalizedResp] at h1
        · exact Or.inr rfl
    · simp [isErrResp] at h2

/-- Helper: the monitoring loop hits its wall-clock timeout when the
status never reaches completed and never reports an error. -/
theorem monitorLoop_never_completed (P : JsPrims) (now : Nat)
    (statusAt : Nat → StatusResp) (logsAt : Nat → Option (List Str))
    (hm : ∀ i, isFinalizedResp (statusAt i) = false ∧ isErrResp (statusAt i) = false)
    (timeoutMs : Nat) :
    ∀ (fuel iter elapsed : Nat), timeoutMs - elapsed ≤ fuel →
      monitorLoop P now statusAt logsAt iter elapsed timeoutMs = .error .timeout := by
  intro fuel
  induction fuel with
  | zero =>
    intro iter elapsed h
    rw [monitorLoop, dif_neg (by omega)]
  | succ n ih =>
    intro iter elapsed h
    rw [monitorLoop]
    by_cases hlt : elapsed < timeoutMs
    · rw [dif_pos hlt]
      rcases getComputationStatus_not_terminal (statusAt iter) (hm iter).1 (hm iter).2
        with hc | hc
      · simp only [hc]
        exact ih (iter + 1) (elapsed + 5000) (by omega)
      · simp only [hc]
        exact ih (iter + 1) (elapsed + 2000) (by omega)
    · rw [dif_neg hlt]

/-- C8: polling is bounded.  When none of the first maxAttempts status
responses is finalized, pollComputationResult performs its at most
maxAttempts queries (only those responses are inspected) and returns the
polling-timeout error, for every maxAttempts and intervalMs; when the
monitored signature is never finalized and never reports an error,
monitorComputationProgress returns the monitoring-timeout error, bounded
by the explicit wall-clock timeoutMs; and the source defaults are 30
attempts, 2000 ms interval, 300000 ms monitor timeout. -/
theorem polling_bounded (P : JsPrims) (now : Nat)
    (statusAt statusAt2 : Nat → StatusResp)
    (logsAt logsAt2 : Nat → Option (List Str))
    (maxAttempts intervalMs timeoutMs : Nat)
    (hp : ∀ i, i < maxAttempts → isFinalizedResp (statusAt i) = false)
    (hm : ∀ i, isFinalizedResp (statusAt2 i) = false ∧ isErrResp (statusAt2 i) = false) :
    pollComputationResult P now statusAt logsAt maxAttempts intervalMs
        = .error .timeout
      ∧ monitorLoop P now statusAt2 logsAt2 0 0 timeoutMs = .error .timeout
      ∧ defaultMaxAttempts = 30 ∧ defaultIntervalMs = 2000
      ∧ defaultMonitorTimeoutMs = 300000 := by
  refine ⟨?_, ?_, rfl, rfl, rfl⟩
  · exact pollFrom_never_finalized P now statusAt logsAt maxAttempts 0
      (fun i hi1 hi2 => hp i (by omega))
  · exact monitorLoop_never_completed P now statusAt2 logsAt2 hm timeoutMs
      timeoutMs 0 0 (by omega)

/-- Witness for C8: a signature whose status responses are always null
times out after 2 attempts, and the monitor variant after a 3000 ms
budget. -/
theorem polling_bounded_witness :
    pollComputationResult pollPrims 0 (fun _ => none) (fun _ => none) 2 1000
        = .error .timeout
      ∧ monitorLoop pollPrims 0 (fun _ => none) (fun _ => none) 0 0 3000
        = .error .timeout
      ∧ defaultMaxAttempts = 30 ∧ defaultIntervalMs = 2000
      ∧ defaultMonitorTimeoutMs = 300000 :=
  polling_bounded pollPrims 0 (fun _ => none) (fun _ => none) (fun _ => none)
    (fun _ => none) 2 1000 3000 (fun _ _ => rfl) (fun _ => ⟨rfl, rfl⟩)

end Shadow
